import Mathlib

/-!
Verification of the pyedit editor (src/pyedit.py): a shallow embedding of
the interactive console line discipline (`InteractiveConsole`), the
recent-files bookkeeping (`PythonFocusedEditorController._add_to_recent_files`)
and the script runner (`ScriptRunner.run_script`), with theorems settling
the specified properties.

Strings are modelled as `List Char`; buffer positions are `Nat` indices into
the character list (Qt's `document().characterCount() - 1` equals the length
of the plain text, i.e. the end-of-buffer position).
-/

namespace PyEdit

/-- Whitespace as recognised by Python's `str.strip()`. -/
def isPySpace (c : Char) : Bool :=
  c = ' ' || c = '\t' || c = '\n' || c = '\r' || c = '\x0b' || c = '\x0c'

/-- Python `s.lstrip()`: drop leading whitespace. -/
def lstrip (l : List Char) : List Char := l.dropWhile isPySpace

/-- Python `s.rstrip()`: drop trailing whitespace. -/
def rstrip (l : List Char) : List Char := (l.reverse.dropWhile isPySpace).reverse

/-- Python `s.strip()`: drop leading and trailing whitespace. -/
def strip (l : List Char) : List Char := rstrip (lstrip l)

/-!
Recent files: `PythonFocusedEditorController._add_to_recent_files`
(src/pyedit.py lines 1057-1063).  Python's `list.remove` deletes the first
occurrence only; `List.erase` matches this (and is the identity when the
element is absent, matching the `if file_path in self.recent_files` guard).
-/

/-- Embedding of `_add_to_recent_files`: remove the first occurrence of
`file_path` if present, insert it at index 0, truncate to 10 entries. -/
def add_to_recent_files (recent_files : List String) (file_path : String) :
    List String :=
  (file_path :: recent_files.erase file_path).take 10

/-!
Script runner: `ScriptRunner.run_script` (src/pyedit.py lines 564-578).
The filesystem is abstracted as a predicate saying which paths exist;
signal emissions are collected in the result record.
-/

/-- Result of a `run_script` call: the strings emitted on `error_signal`
and `output_signal`, and the started process command line (if any). -/
structure RunResult where
  errors : List String
  outputs : List String
  started : Option (List String)
deriving Repr, DecidableEq

/-- Embedding of `ScriptRunner.run_script`. `exists_fs` abstracts
`QFileInfo(file_path).exists()`; `python_exe` abstracts `sys.executable`. -/
def run_script (exists_fs : String → Bool) (python_exe : String)
    (file_path : String) (args : List String) (debugger : Bool) : RunResult :=
  if exists_fs file_path = false then
    { errors := ["Error: File not found at \x27" ++ file_path ++ "\x27"]
      outputs := []
      started := none }
  else
    let command := [python_exe] ++ (if debugger then ["-m", "pdb"] else [])
      ++ [file_path] ++ args
    { errors := []
      outputs := ["\n[Running script: " ++ String.intercalate " " command ++ "]\n"]
      started := some command }

/-!
Interactive console: `InteractiveConsole` (src/pyedit.py lines 183-280).
The widget state is the plain-text buffer (a character list), the edit
cursor, the recorded `current_line_start_pos` (called `line_start` below,
as in the spec), the prompt string, the history list with its index, and
the log of commands emitted on the `command_entered` signal.
-/

/-- State of the `InteractiveConsole` widget. -/
structure ConsoleState where
  buffer : List Char
  cursor : Nat
  line_start : Nat
  prompt : List Char
  history : List (List Char)
  history_index : Int
  emitted : List (List Char)
deriving Repr, DecidableEq

/-- Position of the start of the line containing `pos` (just after the
previous newline, or 0): Qt `QTextCursor.MoveOperation.StartOfLine` with
line wrapping disabled. -/
def lineStartPos (buf : List Char) (pos : Nat) : Nat :=
  pos - ((buf.take pos).reverse.takeWhile (fun c => c != '\n')).length

/-- Position of the end of the line containing `pos` (the next newline, or
the end of the buffer): Qt `QTextCursor.MoveOperation.EndOfLine` with line
wrapping disabled. -/
def lineEndPos (buf : List Char) (pos : Nat) : Nat :=
  pos + ((buf.drop pos).takeWhile (fun c => c != '\n')).length

/-- Insert a string at position `i` of a buffer (Qt `QTextCursor.insertText`). -/
def insertAt (l : List Char) (i : Nat) (s : List Char) : List Char :=
  l.take i ++ s ++ l.drop i

/-- Embedding of the overridden `InteractiveConsole.appendPlainText`
(lines 273-280): move the cursor to the end, insert `text`, keep the
cursor at the end. -/
def appendPlainText (s : ConsoleState) (text : List Char) : ConsoleState :=
  { s with buffer := s.buffer ++ text
           cursor := s.buffer.length + text.length }

/-- Embedding of `InteractiveConsole.setPrompt` (lines 200-205): store the
prompt, record `current_line_start_pos = cursor position + len(prompt)`,
append the prompt text, move the cursor to the end. -/
def setPrompt (s : ConsoleState) (new_prompt : List Char) : ConsoleState :=
  let s1 : ConsoleState :=
    { s with prompt := new_prompt
             line_start := s.cursor + new_prompt.length }
  let s2 := appendPlainText s1 new_prompt
  { s2 with cursor := s2.buffer.length }

/-- Key events relevant to the console's `keyPressEvent`. -/
inductive Key where
  | up
  | down
  | enter
  | char (c : Char)
  | backspace
  | delete
  | leftArrow
  | rightArrow
deriving Repr, DecidableEq

/-- Modelled from the toolkit: default `QPlainTextEdit.keyPressEvent`
line-editing behavior for keys the console does not intercept (with the
widget editable): printable keys insert at the cursor, Backspace deletes
the character before the cursor, Delete the character at the cursor, and
the arrow keys move the cursor within the document. -/
def defaultKeyPress (s : ConsoleState) (k : Key) : ConsoleState :=
  match k with
  | Key.char c =>
      { s with buffer := insertAt s.buffer s.cursor [c]
               cursor := s.cursor + 1 }
  | Key.backspace =>
      if 0 < s.cursor then
        { s with buffer := s.buffer.take (s.cursor - 1) ++ s.buffer.drop s.cursor
                 cursor := s.cursor - 1 }
      else s
  | Key.delete =>
      if s.cursor < s.buffer.length then
        { s with buffer := s.buffer.take s.cursor ++ s.buffer.drop (s.cursor + 1) }
      else s
  | Key.leftArrow => { s with cursor := s.cursor - 1 }
  | Key.rightArrow => { s with cursor := min (s.cursor + 1) s.buffer.length }
  | _ => s

/-- Embedding of `InteractiveConsole._handle_history_navigation`
(lines 224-249): if the history is empty do nothing; otherwise move
`history_index` (Up: increment while below `len(history) - 1`; Down:
decrement while above 0, else jump to -1), then erase the cursor's line,
re-insert the prompt, and insert the selected history entry (none when
`history_index == -1`). -/
def handle_history_navigation (s : ConsoleState) (k : Key) : ConsoleState :=
  if s.history = [] then s
  else
    let s1 : ConsoleState :=
      match k with
      | Key.up =>
          if s.history_index < (s.history.length : Int) - 1 then
            { s with history_index := s.history_index + 1 }
          else s
      | Key.down =>
          if 0 < s.history_index then
            { s with history_index := s.history_index - 1 }
          else
            { s with history_index := -1 }
      | _ => s
    let a := lineStartPos s1.buffer s1.cursor
    let b := lineEndPos s1.buffer s1.cursor
    let s2 : ConsoleState :=
      { s1 with buffer := s1.buffer.take a ++ s1.prompt ++ s1.buffer.drop b
                cursor := a + s1.prompt.length }
    if s2.history_index ≠ -1 then
      let entry := s2.history.getD s2.history_index.toNat []
      { s2 with buffer := insertAt s2.buffer s2.cursor entry
                cursor := s2.cursor + entry.length }
    else s2

/-- The `history_index` update of `_handle_history_navigation`
(lines 229-236), taken apart for the proofs: Up increments while below
`len(history) - 1`, Down decrements while above 0 and otherwise jumps
to -1. -/
def navUpdateIndex (s : ConsoleState) (k : Key) : ConsoleState :=
  match k with
  | Key.up =>
      if s.history_index < (s.history.length : Int) - 1 then
        { s with history_index := s.history_index + 1 }
      else s
  | Key.down =>
      if 0 < s.history_index then
        { s with history_index := s.history_index - 1 }
      else
        { s with history_index := -1 }
  | _ => s

/-- The line-rewrite step of `_handle_history_navigation` (lines 238-249),
taken apart for the proofs: erase the cursor's line, re-insert the prompt,
then insert the selected history entry unless `history_index == -1`. -/
def navRewriteLine (s : ConsoleState) : ConsoleState :=
  let a := lineStartPos s.buffer s.cursor
  let b := lineEndPos s.buffer s.cursor
  let s2 : ConsoleState :=
    { s with buffer := s.buffer.take a ++ s.prompt ++ s.buffer.drop b
             cursor := a + s.prompt.length }
  if s2.history_index ≠ -1 then
    let entry := s2.history.getD s2.history_index.toNat []
    { s2 with buffer := insertAt s2.buffer s2.cursor entry
              cursor := s2.cursor + entry.length }
  else s2

/-- Command extracted by `_handle_command_entry` (lines 253-258): select
the cursor's whole line and compute `selected.strip()[len(prompt):].strip()`. -/
def extractedCommand (s : ConsoleState) : List Char :=
  let a := lineStartPos s.buffer s.cursor
  let b := lineEndPos s.buffer s.cursor
  let selected := (s.buffer.drop a).take (b - a)
  strip ((strip selected).drop s.prompt.length)

/-- Embedding of `InteractiveConsole._handle_command_entry`
(lines 251-271): extract the command; if non-empty and different from
`history[0]`, insert it at the front of the history; reset
`history_index` to -1; append a newline; emit the command; re-issue the
prompt via `setPrompt`. -/
def handle_command_entry (s : ConsoleState) : ConsoleState :=
  let command := extractedCommand s
  let history1 :=
    if command ≠ [] ∧ (s.history = [] ∨ s.history.head? ≠ some command) then
      command :: s.history
    else s.history
  let s1 : ConsoleState := { s with history := history1, history_index := -1 }
  let s2 := appendPlainText s1 ['\n']
  let s3 : ConsoleState := { s2 with emitted := s2.emitted ++ [command] }
  setPrompt s3 s3.prompt

/-- First step of `keyPressEvent` (lines 209-215): when the cursor sits
strictly before `current_line_start_pos`, move it to the end of the
buffer (`document().characterCount() - 1`). -/
def clampCursor (s : ConsoleState) : ConsoleState :=
  if s.cursor < s.line_start then { s with cursor := s.buffer.length } else s

/-- Dispatch of `keyPressEvent` (lines 217-222) after the cursor clamp:
Up and Down go to history navigation, Return and Enter to command entry,
everything else to the default widget behavior. -/
def dispatchKey (s : ConsoleState) (k : Key) : ConsoleState :=
  match k with
  | Key.up => handle_history_navigation s Key.up
  | Key.down => handle_history_navigation s Key.down
  | Key.enter => handle_command_entry s
  | k => defaultKeyPress s k

/-- Embedding of `InteractiveConsole.keyPressEvent` (lines 207-222). -/
def keyPressEvent (s : ConsoleState) (k : Key) : ConsoleState :=
  dispatchKey (clampCursor s) k

/-- The default prompt `">>> "` set in `InteractiveConsole.__init__`. -/
def defaultPrompt : List Char := ['>', '>', '>', ' ']

/-- The debugger prompt `"(pdb) "` set by `_start_debugging` (line 1233). -/
def pdbPrompt : List Char := ['(', 'p', 'd', 'b', ')', ' ']

/-- Blank console widget before `__init__` runs `setPrompt`: empty
document, cursor at 0, prompt attribute already set to `">>> "`. -/
def emptyConsoleBase : ConsoleState :=
  { buffer := [], cursor := 0, line_start := 0, prompt := defaultPrompt
    history := [], history_index := -1, emitted := [] }

/-- Console state after `InteractiveConsole.__init__` (lines 190-198):
the blank widget after `setPrompt(self.prompt)`, empty history,
`history_index = -1`. -/
def initConsole : ConsoleState :=
  setPrompt emptyConsoleBase defaultPrompt

/-- Qt `QPlainTextEdit.clear()`: empties the document and puts the cursor
at position 0 (the Python attribute `current_line_start_pos` is not
touched). -/
def consoleClear (s : ConsoleState) : ConsoleState :=
  { s with buffer := [], cursor := 0 }

/-- Console state reached by `_start_debugging` (lines 1230-1233):
`setReadOnly(False)` (so default editing is live), `clear()`, then
`setPrompt("(pdb) ")`. -/
def startDebugConsole (s : ConsoleState) : ConsoleState :=
  setPrompt (consoleClear s) pdbPrompt

/-- Positions at which edits are accepted: at or after `line_start` and
inside the buffer. -/
def editablePos (s : ConsoleState) (p : Nat) : Prop :=
  s.line_start ≤ p ∧ p < s.buffer.length

instance (s : ConsoleState) (p : Nat) : Decidable (editablePos s p) := by
  unfold editablePos
  infer_instance

/-- Text of the cursor's line with the prompt prefix removed: the
"current-line text" of the spec. -/
def currentLineText (s : ConsoleState) : List Char :=
  let a := lineStartPos s.buffer s.cursor
  let b := lineEndPos s.buffer s.cursor
  ((s.buffer.drop a).take (b - a)).drop s.prompt.length

/-- Typing a sequence of printable keys through `keyPressEvent`. -/
def typeChars (s : ConsoleState) (cs : List Char) : ConsoleState :=
  cs.foldl (fun st c => keyPressEvent st (Key.char c)) s

/-- Pressing the Up key `n` times through `keyPressEvent`. -/
def pressUpN : ConsoleState → Nat → ConsoleState
  | s, 0 => s
  | s, n + 1 => pressUpN (keyPressEvent s Key.up) n

/-- Sample state: the fresh console after the user has typed `"  ls  "`. -/
def sampleLsState : ConsoleState :=
  { buffer := defaultPrompt ++ [' ', ' ', 'l', 's', ' ', ' ']
    cursor := 10, line_start := 4, prompt := defaultPrompt
    history := [], history_index := -1, emitted := [] }

/-- Sample state: a fresh console line with history `["foo"]`. -/
def sampleFooState : ConsoleState :=
  { buffer := defaultPrompt, cursor := 4, line_start := 4
    prompt := defaultPrompt
    history := [['f', 'o', 'o']], history_index := -1, emitted := [] }

/-! Lemmas about the Python strip functions. -/

theorem dropWhile_dropWhile (p : Char → Bool) (l : List Char) :
    (l.dropWhile p).dropWhile p = l.dropWhile p := by
  induction l with
  | nil => rfl
  | cons c t ih =>
      by_cases h : p c
      · simp [List.dropWhile, h, ih]
      · simp [List.dropWhile, h]

theorem lstrip_lstrip (l : List Char) : lstrip (lstrip l) = lstrip l :=
  dropWhile_dropWhile isPySpace l

theorem rstrip_rstrip (l : List Char) : rstrip (rstrip l) = rstrip l := by
  simp [rstrip, dropWhile_dropWhile]

theorem dropWhile_append (p : Char → Bool) (a b : List Char) :
    (a ++ b).dropWhile p =
      if a.dropWhile p = [] then b.dropWhile p else a.dropWhile p ++ b := by
  induction a with
  | nil => simp
  | cons c t ih =>
      by_cases h : p c
      · simpa [List.dropWhile, h] using ih
      · simp [List.dropWhile, h]

theorem takeWhile_append (p : Char → Bool) (a b : List Char) :
    (a ++ b).takeWhile p =
      if a.takeWhile p = a then a ++ b.takeWhile p else a.takeWhile p := by
  induction a with
  | nil => simp
  | cons c t ih =>
      by_cases h : p c
      · by_cases h2 : t.takeWhile p = t <;>
          simp [List.takeWhile, h, ih, h2, List.cons_eq_cons]
      · simp [List.takeWhile, h]

theorem lstrip_cons_of_not_space {c : Char} (t : List Char) (h : ¬ isPySpace c) :
    lstrip (c :: t) = c :: t := by
  simp [lstrip, List.dropWhile, h]

theorem rstrip_all_space {l : List Char} (h : ∀ c ∈ l, isPySpace c) :
    rstrip l = [] := by
  have : l.reverse.dropWhile isPySpace = [] := by
    rw [List.dropWhile_eq_nil_iff]
    intro c hc
    exact h c (List.mem_reverse.mp hc)
  simp [rstrip, this]

theorem lstrip_all_space {l : List Char} (h : ∀ c ∈ l, isPySpace c) :
    lstrip l = [] := by
  rw [lstrip, List.dropWhile_eq_nil_iff]
  exact h

theorem rstrip_append (a b : List Char) :
    rstrip (a ++ b) = if rstrip b = [] then rstrip a else a ++ rstrip b := by
  by_cases h : b.reverse.dropWhile isPySpace = []
  · have hb : rstrip b = [] := by simp [rstrip, h]
    simp [rstrip, dropWhile_append, h, hb]
  · have hb : rstrip b ≠ [] := by simp [rstrip, h]
    simp [rstrip, dropWhile_append, h, hb]

theorem rstrip_length_le (l : List Char) : (rstrip l).length ≤ l.length := by
  have := (List.dropWhile_sublist (l := l.reverse) isPySpace).length_le
  simpa [rstrip] using this

theorem rstrip_eq_nil_iff {l : List Char} :
    rstrip l = [] ↔ ∀ c ∈ l, isPySpace c := by
  constructor
  · intro h c hc
    have h2 : l.reverse.dropWhile isPySpace = [] := by
      have := congrArg List.reverse h
      simpa [rstrip] using this
    rw [List.dropWhile_eq_nil_iff] at h2
    exact h2 c (List.mem_reverse.mpr hc)
  · exact rstrip_all_space

theorem dropWhile_head_or_nil (p : Char → Bool) (l : List Char) :
    l.dropWhile p = [] ∨ ∃ c t, l.dropWhile p = c :: t ∧ ¬ p c := by
  induction l with
  | nil => exact Or.inl rfl
  | cons c t ih =>
      by_cases h : p c
      · simpa [List.dropWhile, h] using ih
      · exact Or.inr ⟨c, t, by simp [List.dropWhile, h], h⟩

theorem lstrip_head_or_nil (l : List Char) :
    lstrip l = [] ∨ ∃ c t, lstrip l = c :: t ∧ ¬ isPySpace c :=
  dropWhile_head_or_nil isPySpace l

theorem exists_drop_dropWhile (p : Char → Bool) (l : List Char) :
    ∃ k, l.dropWhile p = l.drop k := by
  induction l with
  | nil => exact ⟨0, rfl⟩
  | cons c t ih =>
      by_cases h : p c
      · obtain ⟨k, hk⟩ := ih
        exact ⟨k + 1, by simpa [List.dropWhile, h] using hk⟩
      · exact ⟨0, by simp [List.dropWhile, h]⟩

theorem rstrip_eq_take (l : List Char) : ∃ j, rstrip l = l.take j := by
  obtain ⟨k, hk⟩ := exists_drop_dropWhile isPySpace l.reverse
  refine ⟨l.length - k, ?_⟩
  rw [rstrip, hk, List.reverse_drop]
  simp

theorem lstrip_rstrip (l : List Char) (h : lstrip l = l) :
    lstrip (rstrip l) = rstrip l := by
  rcases lstrip_head_or_nil l with h0 | ⟨c, t, hct, hc⟩
  · rw [h] at h0
    subst h0
    rfl
  · rw [h] at hct
    subst hct
    obtain ⟨j, hj⟩ := rstrip_eq_take (c :: t)
    cases j with
    | zero => simp [hj, lstrip]
    | succ j =>
        rw [hj, List.take_succ_cons]
        exact lstrip_cons_of_not_space _ hc

theorem strip_idem (l : List Char) : strip (strip l) = strip l := by
  have h1 : lstrip (rstrip (lstrip l)) = rstrip (lstrip l) :=
    lstrip_rstrip (lstrip l) (lstrip_lstrip l)
  simp [strip, h1, rstrip_rstrip]

theorem lstrip_append_left_space (a b : List Char) (h : ∀ x ∈ a, isPySpace x) :
    lstrip (a ++ b) = lstrip b := by
  have ha : List.dropWhile isPySpace a = [] := lstrip_all_space h
  rw [lstrip, dropWhile_append, if_pos ha]
  rfl

theorem strip_rstrip (l : List Char) : strip (rstrip l) = strip l := by
  have hsplit : l.takeWhile isPySpace ++ lstrip l = l :=
    List.takeWhile_append_dropWhile isPySpace l
  have hw : ∀ x ∈ l.takeWhile isPySpace, isPySpace x := fun x hx =>
    List.mem_takeWhile_imp hx
  by_cases hz : rstrip (lstrip l) = []
  · have hr : rstrip l = [] := by
      conv_lhs => rw [← hsplit]
      rw [rstrip_append, if_pos hz]
      exact rstrip_all_space hw
    have hs : strip l = [] := by simp [strip, hz]
    rw [hr, hs]
    rfl
  · have hr : rstrip l = l.takeWhile isPySpace ++ rstrip (lstrip l) := by
      conv_lhs => rw [← hsplit]
      rw [rstrip_append, if_neg hz]
    rw [strip, hr, lstrip_append_left_space _ _ hw,
      lstrip_rstrip (lstrip l) (lstrip_lstrip l), rstrip_rstrip]
    rfl

theorem strip_append_eq (p t : List Char) (hp : lstrip p = p) (hne : p ≠ []) :
    strip (p ++ t) = if rstrip t = [] then rstrip p else p ++ rstrip t := by
  have hl : lstrip (p ++ t) = p ++ t := by
    cases p with
    | nil => exact absurd rfl hne
    | cons c p' =>
        have hc : ¬ isPySpace c := by
          rcases lstrip_head_or_nil (c :: p') with h0 | ⟨d, u, hdu, hd⟩
          · rw [hp] at h0; exact absurd h0 (by simp)
          · rw [hp] at hdu
            obtain ⟨h1, _⟩ := List.cons_eq_cons.mp hdu
            rw [← h1] at hd; exact hd
        simpa using lstrip_cons_of_not_space (p' ++ t) hc
  rw [strip, hl, rstrip_append]

/-- Core lemma for the Enter handler's command extraction: when the selected
line is `p ++ t` and the prompt `p` has no leading whitespace, Python's
`selected.strip()[len(p):].strip()` equals `t.strip()`. -/
theorem strip_drop_strip (p t : List Char) (hp : lstrip p = p) :
    strip ((strip (p ++ t)).drop p.length) = strip t := by
  cases p with
  | nil => simpa using strip_idem t
  | cons c p' =>
      rw [strip_append_eq (c :: p') t hp (by simp)]
      by_cases hz : rstrip t = []
      · have hall : ∀ x ∈ t, isPySpace x := rstrip_eq_nil_iff.mp hz
        have hst : strip t = [] := by
          rw [strip, lstrip_all_space hall]
          rfl
        have hdrop : (rstrip (c :: p')).drop (c :: p').length = [] :=
          List.drop_eq_nil_of_le (rstrip_length_le _)
        rw [if_pos hz, hdrop, hst]
        rfl
      · rw [if_neg hz, List.drop_left]
        exact strip_rstrip t

/-!
Lemmas about line boundaries in a canonical console buffer
`pre ++ rest`, where `pre` is the newline-terminated scrollback and
`rest` (the current line) contains no newline.
-/

theorem lineStartPos_canonical (pre rest : List Char) (pos : Nat)
    (hpre : pre = [] ∨ pre.getLast? = some '\n')
    (hnl : ∀ c ∈ rest, c ≠ '\n')
    (h1 : pre.length ≤ pos) (h2 : pos ≤ pre.length + rest.length) :
    lineStartPos (pre ++ rest) pos = pre.length := by
  have htake : (pre ++ rest).take pos = pre ++ rest.take (pos - pre.length) := by
    rw [List.take_append_eq_append_take, List.take_of_length_le h1]
  have hrev : ((pre ++ rest).take pos).reverse
      = (rest.take (pos - pre.length)).reverse ++ pre.reverse := by
    rw [htake, List.reverse_append]
  have hall : ∀ c ∈ (rest.take (pos - pre.length)).reverse, (c != '\n') = true := by
    intro c hc
    have hm : c ∈ rest := List.take_subset _ _ (List.mem_reverse.mp hc)
    simpa using hnl c hm
  have hpre2 : pre.reverse.takeWhile (fun c => c != '\n') = [] := by
    rcases hpre with h | h
    · simp [h]
    · cases hr : pre.reverse with
      | nil => simp
      | cons d u =>
          have hd : pre.reverse.head? = some d := by rw [hr]; rfl
          rw [List.head?_reverse, h] at hd
          obtain rfl : '\n' = d := by injection hd
          simp [List.takeWhile_cons]
  rw [lineStartPos, hrev, takeWhile_append,
    if_pos (List.takeWhile_eq_self_iff.mpr hall), hpre2]
  simp only [List.append_nil, List.length_reverse, List.length_take]
  omega

theorem lineEndPos_canonical (pre rest : List Char) (pos : Nat)
    (hnl : ∀ c ∈ rest, c ≠ '\n')
    (h1 : pre.length ≤ pos) (h2 : pos ≤ pre.length + rest.length) :
    lineEndPos (pre ++ rest) pos = pre.length + rest.length := by
  have hdrop : (pre ++ rest).drop pos = rest.drop (pos - pre.length) := by
    rw [List.drop_append_eq_append_drop, List.drop_eq_nil_of_le h1]
    simp
  have hall : ∀ c ∈ rest.drop (pos - pre.length), (c != '\n') = true := by
    intro c hc
    simpa using hnl c (List.drop_subset _ _ hc)
  rw [lineEndPos, hdrop, List.takeWhile_eq_self_iff.mpr hall, List.length_drop]
  omega

theorem selectedLine_canonical (pre rest : List Char) (pos : Nat)
    (hpre : pre = [] ∨ pre.getLast? = some '\n')
    (hnl : ∀ c ∈ rest, c ≠ '\n')
    (h1 : pre.length ≤ pos) (h2 : pos ≤ pre.length + rest.length) :
    ((pre ++ rest).drop (lineStartPos (pre ++ rest) pos)).take
      (lineEndPos (pre ++ rest) pos - lineStartPos (pre ++ rest) pos) = rest := by
  rw [lineStartPos_canonical pre rest pos hpre hnl h1 h2,
    lineEndPos_canonical pre rest pos hnl h1 h2, List.drop_left]
  have h3 : pre.length + rest.length - pre.length = rest.length := by omega
  rw [h3, List.take_length]

/-! Field-preservation lemmas for the console step functions. -/

theorem clampCursor_fields (s : ConsoleState) :
    (clampCursor s).buffer = s.buffer ∧ (clampCursor s).line_start = s.line_start ∧
    (clampCursor s).prompt = s.prompt ∧ (clampCursor s).history = s.history ∧
    (clampCursor s).history_index = s.history_index ∧
    (clampCursor s).emitted = s.emitted := by
  unfold clampCursor
  split <;> exact ⟨rfl, rfl, rfl, rfl, rfl, rfl⟩

theorem handle_history_navigation_history (s : ConsoleState) (k : Key) :
    (handle_history_navigation s k).history = s.history := by
  cases k <;> simp only [handle_history_navigation] <;> split_ifs <;> rfl

theorem defaultKeyPress_history (s : ConsoleState) (k : Key) :
    (defaultKeyPress s k).history = s.history ∧
    (defaultKeyPress s k).history_index = s.history_index := by
  cases k <;> unfold defaultKeyPress <;> (try split_ifs) <;> exact ⟨rfl, rfl⟩

theorem handle_command_entry_history (s : ConsoleState) :
    (handle_command_entry s).history =
      if extractedCommand s ≠ [] ∧
          (s.history = [] ∨ s.history.head? ≠ some (extractedCommand s)) then
        extractedCommand s :: s.history
      else s.history := rfl

theorem handle_command_entry_history_index (s : ConsoleState) :
    (handle_command_entry s).history_index = -1 := rfl

theorem handle_command_entry_emitted (s : ConsoleState) :
    (handle_command_entry s).emitted = s.emitted ++ [extractedCommand s] := rfl

/-- Claim C9: for a file path that does not exist, `run_script` emits an
error message naming the path on the error signal, emits nothing else,
and starts no process. -/
theorem run_script_reports_missing_file (exists_fs : String → Bool)
    (python_exe file_path : String) (args : List String) (debugger : Bool)
    (h : exists_fs file_path = false) :
    (run_script exists_fs python_exe file_path args debugger).errors
        = ["Error: File not found at \x27" ++ file_path ++ "\x27"] ∧
    (run_script exists_fs python_exe file_path args debugger).started = none ∧
    (run_script exists_fs python_exe file_path args debugger).outputs = [] := by
  simp [run_script, h]

/-- Witness for C9 at a concrete missing path. -/
theorem run_script_reports_missing_file_witness :
    (run_script (fun _ => false) "python3" "missing.py" [] false).errors
        = ["Error: File not found at \x27missing.py\x27"] ∧
    (run_script (fun _ => false) "python3" "missing.py" [] false).started = none ∧
    (run_script (fun _ => false) "python3" "missing.py" [] false).outputs = [] :=
  run_script_reports_missing_file (fun _ => false) "python3" "missing.py" [] false rfl

/-- Claim C8, counterexample: on an input list that already contains the
added path twice, `_add_to_recent_files` leaves a duplicate of the added
path in the list, so the claim as stated (for every recent-files list)
fails. -/
theorem add_to_recent_files_duplicate_cex :
    add_to_recent_files ["a", "a"] "a" = ["a", "a"] ∧
    ¬ (add_to_recent_files ["a", "a"] "a").Nodup ∧
    (add_to_recent_files ["a", "a"] "a").count "a" = 2 := by
  refine ⟨rfl, by decide, rfl⟩

/-- Claim C8 (amended): for every recent-files list containing the added
path at most once — as is the case for every list `_add_to_recent_files`
itself produces — the result has the path at index 0 and exactly once,
keeps the remaining entries in their previous (most-recent-first) order,
and has length at most 10. -/
theorem add_to_recent_files_spec (recent : List String) (p : String)
    (h : recent.count p ≤ 1) :
    (add_to_recent_files recent p).head? = some p ∧
    (add_to_recent_files recent p).count p = 1 ∧
    (add_to_recent_files recent p).length ≤ 10 ∧
    (add_to_recent_files recent p).tail.Sublist recent := by
  have hsub : ((recent.erase p).take 9).Sublist recent :=
    (List.take_sublist _ _).trans (List.erase_sublist _ _)
  have h1 : ((recent.erase p).take 9).count p ≤ (recent.erase p).count p :=
    (List.take_sublist _ _).count_le p
  have h2 : (recent.erase p).count p = recent.count p - 1 :=
    List.count_erase_self p recent
  have htake : add_to_recent_files recent p = p :: (recent.erase p).take 9 := by
    rw [add_to_recent_files]
    rfl
  refine ⟨?_, ?_, ?_, ?_⟩
  · rw [htake]; rfl
  · rw [htake, List.count_cons_self]
    omega
  · rw [add_to_recent_files]
    exact List.length_take_le 10 _
  · rw [htake]
    exact hsub

/-- Witness for C8 (amended) at a concrete list and path. -/
theorem add_to_recent_files_spec_witness :
    (add_to_recent_files ["b"] "a").head? = some "a" ∧
    (add_to_recent_files ["b"] "a").count "a" = 1 ∧
    (add_to_recent_files ["b"] "a").length ≤ 10 ∧
    (add_to_recent_files ["b"] "a").tail.Sublist ["b"] :=
  add_to_recent_files_spec ["b"] "a" (by decide)

/-- Claim C1: the code does not deliver the immutability invariant.  In
the reachable debugger-console state (buffer `"(pdb) "`,
`line_start = 6`, cursor at 6, widget editable), a Backspace key passes
the `cursor.position() < current_line_start_pos` guard untouched and the
default widget behavior deletes the character at position 5 — a position
strictly before `line_start`. -/
theorem backspace_at_line_start_edits_scrollback :
    (startDebugConsole initConsole).buffer = pdbPrompt ∧
    (startDebugConsole initConsole).line_start = 6 ∧
    (startDebugConsole initConsole).cursor = 6 ∧
    (keyPressEvent (startDebugConsole initConsole) Key.backspace).buffer
      = ['(', 'p', 'd', 'b', ')'] := by
  decide

/-- Claim C7: when a key event arrives with the cursor strictly before
`line_start`, the cursor is first forced to the end of the buffer and the
key is then processed from that clamped state. -/
theorem keyPressEvent_clamps_cursor (s : ConsoleState) (k : Key)
    (h : s.cursor < s.line_start) :
    (clampCursor s).cursor = s.buffer.length ∧
    keyPressEvent s k = dispatchKey { s with cursor := s.buffer.length } k := by
  constructor
  · simp [clampCursor, h]
  · rw [keyPressEvent]
    congr 1
    simp [clampCursor, h]

/-- Witness for C7: a concrete state with the cursor inside the
read-only scrollback. -/
theorem keyPressEvent_clamps_cursor_witness :
    (clampCursor { initConsole with cursor := 0 }).cursor
        = ({ initConsole with cursor := 0 } : ConsoleState).buffer.length ∧
    keyPressEvent { initConsole with cursor := 0 } (Key.char 'x')
        = dispatchKey
            { ({ initConsole with cursor := 0 } : ConsoleState) with
                cursor := ({ initConsole with cursor := 0 } : ConsoleState).buffer.length }
            (Key.char 'x') :=
  keyPressEvent_clamps_cursor { initConsole with cursor := 0 } (Key.char 'x') (by decide)

/-- Typing printable keys with the cursor at the end of the buffer (and at
or after `line_start`) appends the characters one by one and keeps the
cursor at the end. -/
theorem typeChars_from_end (s : ConsoleState) (cs : List Char)
    (h1 : s.cursor = s.buffer.length) (h2 : s.line_start ≤ s.cursor) :
    (typeChars s cs).buffer = s.buffer ++ cs ∧
    (typeChars s cs).cursor = s.buffer.length + cs.length ∧
    (typeChars s cs).line_start = s.line_start ∧
    (typeChars s cs).history = s.history ∧
    (typeChars s cs).prompt = s.prompt := by
  induction cs generalizing s with
  | nil => simp [typeChars, h1]
  | cons c cs ih =>
      have hcl : clampCursor s = s := by
        unfold clampCursor
        rw [if_neg (by omega)]
      have hdef : keyPressEvent s (Key.char c)
          = { s with buffer := s.buffer ++ [c], cursor := s.cursor + 1 } := by
        rw [keyPressEvent, hcl]
        show defaultKeyPress s (Key.char c) = _
        unfold defaultKeyPress insertAt
        rw [h1, List.take_length, List.drop_length]
        simp
      have hchain : typeChars s (c :: cs)
          = typeChars (keyPressEvent s (Key.char c)) cs := by
        simp [typeChars]
      have h1' : (keyPressEvent s (Key.char c)).cursor
          = (keyPressEvent s (Key.char c)).buffer.length := by
        rw [hdef]
        simp [h1]
      have h2' : (keyPressEvent s (Key.char c)).line_start
          ≤ (keyPressEvent s (Key.char c)).cursor := by
        rw [hdef]
        simp only []
        omega
      obtain ⟨ib, ic, il, ih2, ip⟩ := ih (keyPressEvent s (Key.char c)) h1' h2'
      rw [hchain]
      refine ⟨?_, ?_, ?_, ?_, ?_⟩
      · rw [ib, hdef]
        simp
      · rw [ic, hdef]
        simp [List.length_append]
        omega
      · rw [il, hdef]
      · rw [ih2, hdef]
      · rw [ip, hdef]

/-- Claim C2, counterexample: `InteractiveConsole.__init__` calls
`setPrompt` on the empty buffer (`end_of_buffer_at_call = 0`); the claimed
editable region `[0, 0 + 4)` would contain position 0, but position 0 is
below `line_start = 4` (it holds a prompt character) and is not editable. -/
theorem setPrompt_editable_region_cex :
    emptyConsoleBase.buffer.length = 0 ∧
    initConsole = setPrompt emptyConsoleBase defaultPrompt ∧
    defaultPrompt.length = 4 ∧
    initConsole.line_start = 4 ∧
    ¬ editablePos initConsole 0 := by
  decide

/-- Claim C2 (amended): after `set_prompt(text)` called with the cursor at
the end of the buffer, the prompt text is appended,
`line_start = end_of_buffer_at_call + len(prompt)` is the new end of
buffer, the cursor moves to `line_start`, and the editable region
`[line_start, end)` is initially empty, becoming exactly
`[line_start, line_start + k)` after the user types `k` characters. -/
theorem setPrompt_editable_region (s : ConsoleState) (t cs : List Char)
    (h : s.cursor = s.buffer.length) :
    (setPrompt s t).buffer = s.buffer ++ t ∧
    (setPrompt s t).line_start = s.buffer.length + t.length ∧
    (setPrompt s t).cursor = (setPrompt s t).line_start ∧
    (∀ q : Nat, ¬ editablePos (setPrompt s t) q) ∧
    (∀ q : Nat, editablePos (typeChars (setPrompt s t) cs) q ↔
      s.buffer.length + t.length ≤ q ∧ q < s.buffer.length + t.length + cs.length) := by
  have hb : (setPrompt s t).buffer = s.buffer ++ t := rfl
  have hl : (setPrompt s t).line_start = s.cursor + t.length := rfl
  have hc : (setPrompt s t).cursor = (s.buffer ++ t).length := rfl
  have M1 : (setPrompt s t).line_start = s.buffer.length + t.length := by rw [hl, h]
  have M2 : (setPrompt s t).buffer.length = s.buffer.length + t.length := by
    rw [hb]; simp
  have h1' : (setPrompt s t).cursor = (setPrompt s t).buffer.length := by
    rw [hc, hb]
  have h2' : (setPrompt s t).line_start ≤ (setPrompt s t).cursor := by
    rw [hc, M1]
    simp
  obtain ⟨tb, tc, tl, _, _⟩ := typeChars_from_end (setPrompt s t) cs h1' h2'
  have L1 : (typeChars (setPrompt s t) cs).line_start
      = s.buffer.length + t.length := by rw [tl, M1]
  have L2 : (typeChars (setPrompt s t) cs).buffer.length
      = s.buffer.length + t.length + cs.length := by
    rw [tb, hb]
    simp
    omega
  refine ⟨hb, M1, by rw [h1', M2, M1], ?_, ?_⟩
  · intro q
    unfold editablePos
    omega
  · intro q
    unfold editablePos
    omega

/-- Witness for C2 (amended): the initial `setPrompt` on the empty console
followed by typing two characters. -/
theorem setPrompt_editable_region_witness :
    (setPrompt emptyConsoleBase defaultPrompt).buffer
        = emptyConsoleBase.buffer ++ defaultPrompt ∧
    (setPrompt emptyConsoleBase defaultPrompt).line_start
        = emptyConsoleBase.buffer.length + defaultPrompt.length ∧
    (setPrompt emptyConsoleBase defaultPrompt).cursor
        = (setPrompt emptyConsoleBase defaultPrompt).line_start ∧
    (∀ q : Nat, ¬ editablePos (setPrompt emptyConsoleBase defaultPrompt) q) ∧
    (∀ q : Nat,
      editablePos (typeChars (setPrompt emptyConsoleBase defaultPrompt) ['l', 's']) q ↔
        emptyConsoleBase.buffer.length + defaultPrompt.length ≤ q ∧
          q < emptyConsoleBase.buffer.length + defaultPrompt.length
              + (['l', 's'] : List Char).length) :=
  setPrompt_editable_region emptyConsoleBase defaultPrompt ['l', 's'] rfl

/-- Effect of an Up key on `history_index` in
`_handle_history_navigation`. -/
theorem handle_history_navigation_up_index (s : ConsoleState) :
    (handle_history_navigation s Key.up).history_index =
      if s.history = [] then s.history_index
      else if s.history_index < (s.history.length : Int) - 1 then
        s.history_index + 1
      else s.history_index := by
  simp only [handle_history_navigation]
  split_ifs <;> rfl

/-- Effect of a Down key on `history_index` in
`_handle_history_navigation`. -/
theorem handle_history_navigation_down_index (s : ConsoleState) :
    (handle_history_navigation s Key.down).history_index =
      if s.history = [] then s.history_index
      else if 0 < s.history_index then s.history_index - 1
      else -1 := by
  simp only [handle_history_navigation]
  split_ifs <;> rfl

/-- One Up key press keeps `history_index` inside `[-1, len(history)-1]`
and leaves the history itself unchanged. -/
theorem up_step (s : ConsoleState)
    (h1 : -1 ≤ s.history_index)
    (h2 : s.history_index ≤ (s.history.length : Int) - 1) :
    (keyPressEvent s Key.up).history = s.history ∧
    -1 ≤ (keyPressEvent s Key.up).history_index ∧
    (keyPressEvent s Key.up).history_index ≤ (s.history.length : Int) - 1 := by
  obtain ⟨_, _, _, ch, ci, _⟩ := clampCursor_fields s
  have hh : (keyPressEvent s Key.up).history = s.history := by
    rw [keyPressEvent]
    rw [show dispatchKey (clampCursor s) Key.up
        = handle_history_navigation (clampCursor s) Key.up from rfl]
    rw [handle_history_navigation_history, ch]
  have hi : (keyPressEvent s Key.up).history_index =
      if (clampCursor s).history = [] then (clampCursor s).history_index
      else if (clampCursor s).history_index
          < ((clampCursor s).history.length : Int) - 1 then
        (clampCursor s).history_index + 1
      else (clampCursor s).history_index := by
    rw [keyPressEvent]
    exact handle_history_navigation_up_index (clampCursor s)
  rw [ch, ci] at hi
  refine ⟨hh, ?_, ?_⟩ <;> rw [hi] <;> split_ifs <;> omega

/-- Claim C4: for every console state with `history_index` in
`[-1, len(history)-1]`, any number of Up key presses leaves the history
unchanged and `history_index` saturated at `len(history) - 1`, never
exceeding it (and never dropping below -1). -/
theorem up_presses_saturate (s : ConsoleState) (n : Nat)
    (h1 : -1 ≤ s.history_index)
    (h2 : s.history_index ≤ (s.history.length : Int) - 1) :
    (pressUpN s n).history = s.history ∧
    -1 ≤ (pressUpN s n).history_index ∧
    (pressUpN s n).history_index ≤ (s.history.length : Int) - 1 := by
  induction n generalizing s with
  | zero => exact ⟨rfl, h1, h2⟩
  | succ n ih =>
      obtain ⟨sh, sl, su⟩ := up_step s h1 h2
      obtain ⟨ih1, ih2, ih3⟩ := ih (keyPressEvent s Key.up) sl (by rw [sh]; exact su)
      have hrec : pressUpN s (n + 1) = pressUpN (keyPressEvent s Key.up) n := rfl
      refine ⟨?_, ?_, ?_⟩
      · rw [hrec, ih1, sh]
      · rw [hrec]; exact ih2
      · rw [hrec]
        rw [sh] at ih3
        exact ih3

/-- Witness for C4: seven Up presses on a one-entry history starting at
the live line. -/
theorem up_presses_saturate_witness :
    (pressUpN { initConsole with history := [['a']] } 7).history
        = ({ initConsole with history := [['a']] } : ConsoleState).history ∧
    -1 ≤ (pressUpN { initConsole with history := [['a']] } 7).history_index ∧
    (pressUpN { initConsole with history := [['a']] } 7).history_index
        ≤ ((({ initConsole with history := [['a']] } : ConsoleState).history.length : Int) - 1) :=
  up_presses_saturate { initConsole with history := [['a']] } 7 (by decide) (by decide)

/-- Claim C3: on Enter, `history_index` is reset to -1; when the
extracted (trimmed) command is non-empty and equal to `history[0]` the
history is unchanged, and when it is non-empty and different the command
is inserted at index 0 (so the length grows by exactly one). -/
theorem enter_history_spec (s : ConsoleState) :
    (keyPressEvent s Key.enter).history_index = -1 ∧
    (extractedCommand (clampCursor s) ≠ [] →
      ((s.history.head? = some (extractedCommand (clampCursor s)) →
          (keyPressEvent s Key.enter).history = s.history) ∧
       (s.history.head? ≠ some (extractedCommand (clampCursor s)) →
          (keyPressEvent s Key.enter).history
            = extractedCommand (clampCursor s) :: s.history))) := by
  have hk : keyPressEvent s Key.enter = handle_command_entry (clampCursor s) := rfl
  obtain ⟨_, _, _, ch, _, _⟩ := clampCursor_fields s
  constructor
  · rw [hk, handle_command_entry_history_index]
  · intro hne
    rw [hk, handle_command_entry_history, ch]
    constructor
    · intro hhead
      rw [if_neg]
      rintro ⟨_, h2 | h2⟩
      · rw [h2] at hhead
        simp at hhead
      · exact h2 hhead
    · intro hhead
      rw [if_pos ⟨hne, Or.inr hhead⟩]

/-- Witness for C3: Enter on the typed line `"  ls  "` with empty
history pushes the command `"ls"` to the front. -/
theorem enter_history_spec_witness :
    extractedCommand (clampCursor sampleLsState) ≠ [] ∧
    sampleLsState.history.head? ≠ some (extractedCommand (clampCursor sampleLsState)) ∧
    (keyPressEvent sampleLsState Key.enter).history_index = -1 ∧
    (keyPressEvent sampleLsState Key.enter).history
      = extractedCommand (clampCursor sampleLsState) :: sampleLsState.history :=
  ⟨by decide, by decide, (enter_history_spec sampleLsState).1,
    ((enter_history_spec sampleLsState).2 (by decide)).2 (by decide)⟩

/-- The command extracted by the Enter handler is a fixed point of
`strip`. -/
theorem strip_extractedCommand (s : ConsoleState) :
    strip (extractedCommand s) = extractedCommand s := by
  simp only [extractedCommand]
  exact strip_idem _

/-- Claim C10: if every history entry is non-empty and equal to its own
trimmed form, the same holds after any key event. -/
theorem history_trimmed_invariant (s : ConsoleState) (k : Key)
    (h : ∀ e ∈ s.history, e ≠ [] ∧ strip e = e) :
    ∀ e ∈ (keyPressEvent s k).history, e ≠ [] ∧ strip e = e := by
  obtain ⟨_, _, _, ch, _, _⟩ := clampCursor_fields s
  have hnav : ∀ k2, (handle_history_navigation (clampCursor s) k2).history
      = s.history := by
    intro k2
    rw [handle_history_navigation_history, ch]
  have hdef : ∀ k2, (defaultKeyPress (clampCursor s) k2).history = s.history := by
    intro k2
    rw [(defaultKeyPress_history (clampCursor s) k2).1, ch]
  have henter : ∀ e ∈ (handle_command_entry (clampCursor s)).history,
      e ≠ [] ∧ strip e = e := by
    rw [handle_command_entry_history, ch]
    split_ifs with hcond
    · intro e he
      rcases List.mem_cons.mp he with rfl | he2
      · exact ⟨hcond.1, strip_extractedCommand _⟩
      · exact h e he2
    · exact h
  cases k with
  | up =>
      have hq : (keyPressEvent s Key.up).history = s.history := hnav Key.up
      rw [hq]; exact h
  | down =>
      have hq : (keyPressEvent s Key.down).history = s.history := hnav Key.down
      rw [hq]; exact h
  | enter =>
      have hq : keyPressEvent s Key.enter = handle_command_entry (clampCursor s) := rfl
      rw [hq]; exact henter
  | char c =>
      have hq : (keyPressEvent s (Key.char c)).history = s.history :=
        hdef (Key.char c)
      rw [hq]; exact h
  | backspace =>
      have hq : (keyPressEvent s Key.backspace).history = s.history :=
        hdef Key.backspace
      rw [hq]; exact h
  | delete =>
      have hq : (keyPressEvent s Key.delete).history = s.history := hdef Key.delete
      rw [hq]; exact h
  | leftArrow =>
      have hq : (keyPressEvent s Key.leftArrow).history = s.history :=
        hdef Key.leftArrow
      rw [hq]; exact h
  | rightArrow =>
      have hq : (keyPressEvent s Key.rightArrow).history = s.history :=
        hdef Key.rightArrow
      rw [hq]; exact h

/-- Witness for C10: the invariant holds for history `["foo"]` and is
kept by an Up key press. -/
theorem history_trimmed_invariant_witness :
    (∀ e ∈ sampleFooState.history, e ≠ [] ∧ strip e = e) ∧
    (∀ e ∈ (keyPressEvent sampleFooState Key.up).history, e ≠ [] ∧ strip e = e) :=
  ⟨by decide, history_trimmed_invariant sampleFooState Key.up (by decide)⟩

/-- On a canonical buffer `pre ++ (prompt ++ cur)` (newline-terminated
scrollback `pre`, current line `prompt ++ cur`), the Enter handler's
extraction `selected.strip()[len(prompt):].strip()` yields `strip cur`. -/
theorem extractedCommand_canonical (pre cur : List Char) (s : ConsoleState)
    (hbuf : s.buffer = pre ++ (s.prompt ++ cur))
    (hpre : pre = [] ∨ pre.getLast? = some '\n')
    (hpnl : ∀ c ∈ s.prompt, c ≠ '\n')
    (hcnl : ∀ c ∈ cur, c ≠ '\n')
    (hlo : pre.length ≤ s.cursor)
    (hhi : s.cursor ≤ pre.length + (s.prompt ++ cur).length)
    (hlp : lstrip s.prompt = s.prompt) :
    extractedCommand s = strip cur := by
  have hnl : ∀ c ∈ s.prompt ++ cur, c ≠ '\n' := by
    intro c hc
    rcases List.mem_append.mp hc with h | h
    exacts [hpnl c h, hcnl c h]
  have hsel := selectedLine_canonical pre (s.prompt ++ cur) s.cursor hpre hnl hlo hhi
  simp only [extractedCommand]
  rw [hbuf, hsel]
  exact strip_drop_strip s.prompt cur hlp

/-- Cursor bounds after the clamp step, on a canonical buffer. -/
theorem clampCursor_bounds (pre cur : List Char) (s : ConsoleState)
    (hbuf : s.buffer = pre ++ (s.prompt ++ cur))
    (hls : s.line_start = pre.length + s.prompt.length)
    (hcur : s.cursor ≤ s.buffer.length) :
    pre.length ≤ (clampCursor s).cursor ∧
    (clampCursor s).cursor ≤ pre.length + (s.prompt ++ cur).length := by
  have hlen : s.buffer.length = pre.length + (s.prompt.length + cur.length) := by
    rw [hbuf]
    simp
  unfold clampCursor
  split_ifs with hsplit
  · constructor
    · show pre.length ≤ s.buffer.length
      omega
    · show s.buffer.length ≤ pre.length + (s.prompt ++ cur).length
      rw [List.length_append]
      omega
  · constructor
    · show pre.length ≤ s.cursor
      omega
    · show s.cursor ≤ pre.length + (s.prompt ++ cur).length
      rw [List.length_append]
      omega

/-- Claim C6: on Enter from a canonical state, the emitted command is the
current-line text with the prompt prefix and surrounding whitespace
removed, and (when non-empty) that trimmed string is the head of the
history afterwards. -/
theorem enter_emits_trimmed_command (pre cur : List Char) (s : ConsoleState)
    (hbuf : s.buffer = pre ++ (s.prompt ++ cur))
    (hls : s.line_start = pre.length + s.prompt.length)
    (hpre : pre = [] ∨ pre.getLast? = some '\n')
    (hpnl : ∀ c ∈ s.prompt, c ≠ '\n')
    (hcnl : ∀ c ∈ cur, c ≠ '\n')
    (hcur : s.cursor ≤ s.buffer.length)
    (hlp : lstrip s.prompt = s.prompt) :
    (keyPressEvent s Key.enter).emitted = s.emitted ++ [strip cur] ∧
    (strip cur ≠ [] →
      (keyPressEvent s Key.enter).history.head? = some (strip cur)) := by
  obtain ⟨cb, cl, cp, ch, ci, ce⟩ := clampCursor_fields s
  obtain ⟨hlo, hhi⟩ := clampCursor_bounds pre cur s hbuf hls hcur
  have hec : extractedCommand (clampCursor s) = strip cur := by
    refine extractedCommand_canonical pre cur (clampCursor s) ?_ hpre ?_ hcnl ?_ ?_ ?_
    · rw [cb, cp, hbuf]
    · rw [cp]; exact hpnl
    · exact hlo
    · rw [cp]; exact hhi
    · rw [cp]; exact hlp
  have hk : keyPressEvent s Key.enter = handle_command_entry (clampCursor s) := rfl
  constructor
  · rw [hk, handle_command_entry_emitted, ce, hec]
  · intro hne
    rw [hk, handle_command_entry_history, ch]
    split_ifs with hcond
    · rw [hec]
      rfl
    · have hA : extractedCommand (clampCursor s) ≠ [] := by rw [hec]; exact hne
      have hC : ¬ (s.history.head? ≠ some (extractedCommand (clampCursor s))) :=
        fun hc => hcond ⟨hA, Or.inr hc⟩
      rw [not_not] at hC
      rw [← hec]
      exact hC

/-- Witness for C6: submitting the line `"  ls  "` emits the command
`"ls"` and stores the history entry `"ls"`. -/
theorem enter_emits_trimmed_command_witness :
    (keyPressEvent sampleLsState Key.enter).emitted
        = sampleLsState.emitted ++ [strip [' ', ' ', 'l', 's', ' ', ' ']] ∧
    (keyPressEvent sampleLsState Key.enter).history.head?
        = some (strip [' ', ' ', 'l', 's', ' ', ' ']) ∧
    strip [' ', ' ', 'l', 's', ' ', ' '] = ['l', 's'] :=
  ⟨(enter_emits_trimmed_command [] [' ', ' ', 'l', 's', ' ', ' '] sampleLsState
      (by decide) (by decide) (Or.inl rfl) (by decide) (by decide) (by decide)
      (by decide)).1,
   (enter_emits_trimmed_command [] [' ', ' ', 'l', 's', ' ', ' '] sampleLsState
      (by decide) (by decide) (Or.inl rfl) (by decide) (by decide) (by decide)
      (by decide)).2 (by decide),
   by decide⟩

/-- The monolithic `_handle_history_navigation` is the composition of the
index update and the line rewrite. -/
theorem handle_history_navigation_eq (s : ConsoleState) (k : Key) :
    handle_history_navigation s k =
      if s.history = [] then s else navRewriteLine (navUpdateIndex s k) := by
  cases k <;> rfl

theorem navUpdateIndex_up (s : ConsoleState) :
    navUpdateIndex s Key.up =
      { s with history_index :=
          if s.history_index < (s.history.length : Int) - 1 then
            s.history_index + 1
          else s.history_index } := by
  unfold navUpdateIndex
  split_ifs <;> rfl

theorem navUpdateIndex_down (s : ConsoleState) :
    navUpdateIndex s Key.down =
      { s with history_index :=
          if 0 < s.history_index then s.history_index - 1 else -1 } := by
  unfold navUpdateIndex
  split_ifs <;> rfl

/-- Effect of the navigation line rewrite on a canonical buffer
`pre ++ (prompt ++ cur)`: the current line is replaced by the prompt
followed by the selected history entry (nothing when
`history_index = -1`), with the cursor at the end. -/
theorem navRewriteLine_spec (pre cur : List Char) (u : ConsoleState)
    (hbuf : u.buffer = pre ++ (u.prompt ++ cur))
    (hpre : pre = [] ∨ pre.getLast? = some '\n')
    (hpnl : ∀ c ∈ u.prompt, c ≠ '\n')
    (hcnl : ∀ c ∈ cur, c ≠ '\n')
    (hlo : pre.length ≤ u.cursor)
    (hhi : u.cursor ≤ pre.length + (u.prompt ++ cur).length) :
    (navRewriteLine u).buffer
        = pre ++ (u.prompt ++
            (if u.history_index = -1 then []
             else u.history.getD u.history_index.toNat [])) ∧
    (navRewriteLine u).cursor
        = pre.length + u.prompt.length +
            (if u.history_index = -1 then []
             else u.history.getD u.history_index.toNat []).length ∧
    (navRewriteLine u).history = u.history ∧
    (navRewriteLine u).history_index = u.history_index ∧
    (navRewriteLine u).prompt = u.prompt := by
  have hnl : ∀ c ∈ u.prompt ++ cur, c ≠ '\n' := by
    intro c hc
    rcases List.mem_append.mp hc with h | h
    exacts [hpnl c h, hcnl c h]
  have ha : lineStartPos u.buffer u.cursor = pre.length := by
    rw [hbuf]
    exact lineStartPos_canonical pre (u.prompt ++ cur) u.cursor hpre hnl hlo hhi
  have hb : lineEndPos u.buffer u.cursor
      = pre.length + (u.prompt.length + cur.length) := by
    rw [hbuf, lineEndPos_canonical pre (u.prompt ++ cur) u.cursor hnl hlo hhi,
      List.length_append]
  have htk : u.buffer.take pre.length = pre := by
    rw [hbuf]
    exact List.take_left pre _
  have hdp : u.buffer.drop (pre.length + (u.prompt.length + cur.length)) = [] := by
    apply List.drop_eq_nil_of_le
    rw [hbuf]
    simp [List.length_append]
  have h1 : (pre ++ u.prompt).take (pre.length + u.prompt.length) = pre ++ u.prompt :=
    List.take_of_length_le (by simp)
  have h2 : (pre ++ u.prompt).drop (pre.length + u.prompt.length) = [] :=
    List.drop_eq_nil_of_le (by simp)
  by_cases hidx : u.history_index = -1
  · simp [navRewriteLine, ha, hb, htk, hdp, hidx]
  · simp [navRewriteLine, insertAt, ha, hb, htk, hdp, hidx, h1, h2,
      List.append_assoc]

/-- The current-line text of a canonical state whose current line is
`prompt ++ e` with the cursor at the end of the buffer is `e`. -/
theorem currentLineText_of_canonical (pre e : List Char) (v : ConsoleState)
    (hbuf : v.buffer = pre ++ (v.prompt ++ e))
    (hcur : v.cursor = pre.length + v.prompt.length + e.length)
    (hpre : pre = [] ∨ pre.getLast? = some '\n')
    (hpnl : ∀ c ∈ v.prompt, c ≠ '\n')
    (henl : ∀ c ∈ e, c ≠ '\n') :
    currentLineText v = e := by
  have hnl : ∀ c ∈ v.prompt ++ e, c ≠ '\n' := by
    intro c hc
    rcases List.mem_append.mp hc with h | h
    exacts [hpnl c h, henl c h]
  have hlo : pre.length ≤ v.cursor := by omega
  have hhi : v.cursor ≤ pre.length + (v.prompt ++ e).length := by
    rw [hcur, List.length_append]
    omega
  have hsel := selectedLine_canonical pre (v.prompt ++ e) v.cursor hpre hnl hlo hhi
  simp only [currentLineText]
  rw [hbuf, hsel, List.drop_left]

/-- A history entry looked up with a default contains no newline when no
entry of the history does. -/
theorem history_getD_no_newline (h : List (List Char)) (i : Nat)
    (hent : ∀ e ∈ h, ∀ c ∈ e, c ≠ '\n') : ∀ c ∈ h.getD i [], c ≠ '\n' := by
  rw [List.getD_eq_getElem?_getD]
  cases hq : h[i]? with
  | none => simp
  | some e => simpa using hent e (List.getElem?_mem hq)

/-- Claim C5: on a canonical console state with non-empty history, Up and
Down keep `history_index` within `[-1, len(history)-1]` (Up increments
saturating at the last index, Down decrements saturating at -1), leave the
history unchanged, and replace the current-line text with the entry at the
new index (clearing it when the index is -1). -/
theorem history_navigation_spec (pre cur : List Char) (s : ConsoleState) (k : Key)
    (hbuf : s.buffer = pre ++ (s.prompt ++ cur))
    (hls : s.line_start = pre.length + s.prompt.length)
    (hpre : pre = [] ∨ pre.getLast? = some '\n')
    (hpnl : ∀ c ∈ s.prompt, c ≠ '\n')
    (hcnl : ∀ c ∈ cur, c ≠ '\n')
    (hcur : s.cursor ≤ s.buffer.length)
    (hh : s.history ≠ [])
    (hid1 : -1 ≤ s.history_index)
    (hid2 : s.history_index ≤ (s.history.length : Int) - 1)
    (hent : ∀ e ∈ s.history, ∀ c ∈ e, c ≠ '\n')
    (hk : k = Key.up ∨ k = Key.down) :
    (keyPressEvent s k).history = s.history ∧
    (keyPressEvent s k).history_index =
      (if k = Key.up then
        (if s.history_index < (s.history.length : Int) - 1 then
          s.history_index + 1
         else s.history_index)
       else (if 0 < s.history_index then s.history_index - 1 else -1)) ∧
    -1 ≤ (keyPressEvent s k).history_index ∧
    (keyPressEvent s k).history_index ≤ (s.history.length : Int) - 1 ∧
    currentLineText (keyPressEvent s k) =
      (if (keyPressEvent s k).history_index = -1 then []
       else s.history.getD (keyPressEvent s k).history_index.toNat []) := by
  obtain ⟨cb, cl, cp, ch, ci, ce⟩ := clampCursor_fields s
  obtain ⟨hlo, hhi⟩ := clampCursor_bounds pre cur s hbuf hls hcur
  have hne' : (clampCursor s).history ≠ [] := by rw [ch]; exact hh
  rcases hk with rfl | rfl
  · have hkey : keyPressEvent s Key.up
        = navRewriteLine (navUpdateIndex (clampCursor s) Key.up) := by
      rw [keyPressEvent]
      show handle_history_navigation (clampCursor s) Key.up = _
      rw [handle_history_navigation_eq, if_neg hne']
    have hu := navUpdateIndex_up (clampCursor s)
    have ub : (navUpdateIndex (clampCursor s) Key.up).buffer = s.buffer := by
      rw [hu]; exact cb
    have ucur : (navUpdateIndex (clampCursor s) Key.up).cursor
        = (clampCursor s).cursor := by rw [hu]
    have uprompt : (navUpdateIndex (clampCursor s) Key.up).prompt = s.prompt := by
      rw [hu]; exact cp
    have uhist : (navUpdateIndex (clampCursor s) Key.up).history = s.history := by
      rw [hu]; exact ch
    have uidx : (navUpdateIndex (clampCursor s) Key.up).history_index
        = (if s.history_index < (s.history.length : Int) - 1 then
            s.history_index + 1
           else s.history_index) := by
      rw [hu]
      show (if (clampCursor s).history_index
          < ((clampCursor s).history.length : Int) - 1 then
            (clampCursor s).history_index + 1
          else (clampCursor s).history_index) = _
      rw [ci, ch]
    have hbuf_u : (navUpdateIndex (clampCursor s) Key.up).buffer
        = pre ++ ((navUpdateIndex (clampCursor s) Key.up).prompt ++ cur) := by
      rw [ub, uprompt, hbuf]
    have hpnl_u : ∀ c ∈ (navUpdateIndex (clampCursor s) Key.up).prompt, c ≠ '\n' := by
      rw [uprompt]; exact hpnl
    have hlo_u : pre.length ≤ (navUpdateIndex (clampCursor s) Key.up).cursor := by
      rw [ucur]; exact hlo
    have hhi_u : (navUpdateIndex (clampCursor s) Key.up).cursor
        ≤ pre.length + ((navUpdateIndex (clampCursor s) Key.up).prompt ++ cur).length := by
      rw [ucur, uprompt]; exact hhi
    obtain ⟨rb, rc, rh, ri, rp⟩ :=
      navRewriteLine_spec pre cur (navUpdateIndex (clampCursor s) Key.up)
        hbuf_u hpre hpnl_u hcnl hlo_u hhi_u
    have hidx5 : (keyPressEvent s Key.up).history_index
        = (navUpdateIndex (clampCursor s) Key.up).history_index := by
      rw [hkey, ri]
    have henl : ∀ c ∈ (if (navUpdateIndex (clampCursor s) Key.up).history_index = -1
        then ([] : List Char)
        else (navUpdateIndex (clampCursor s) Key.up).history.getD
          (navUpdateIndex (clampCursor s) Key.up).history_index.toNat []),
        c ≠ '\n' := by
      split_ifs with hz
      · simp
      · rw [uhist]
        exact history_getD_no_newline s.history _ hent
    have hclt : currentLineText (keyPressEvent s Key.up)
        = (if (navUpdateIndex (clampCursor s) Key.up).history_index = -1 then []
           else (navUpdateIndex (clampCursor s) Key.up).history.getD
             (navUpdateIndex (clampCursor s) Key.up).history_index.toNat []) := by
      rw [hkey]
      refine currentLineText_of_canonical pre _ _ ?_ ?_ hpre ?_ henl
      · rw [rb, rp]
      · rw [rc, rp]
      · rw [rp]; exact hpnl_u
    refine ⟨?_, ?_, ?_, ?_, ?_⟩
    · rw [hkey, rh, uhist]
    · rw [hidx5, uidx, if_pos rfl]
    · rw [hidx5, uidx]
      split_ifs <;> omega
    · rw [hidx5, uidx]
      split_ifs <;> omega
    · rw [hclt, hidx5, ← uhist]
  · have hkey : keyPressEvent s Key.down
        = navRewriteLine (navUpdateIndex (clampCursor s) Key.down) := by
      rw [keyPressEvent]
      show handle_history_navigation (clampCursor s) Key.down = _
      rw [handle_history_navigation_eq, if_neg hne']
    have hu := navUpdateIndex_down (clampCursor s)
    have ub : (navUpdateIndex (clampCursor s) Key.down).buffer = s.buffer := by
      rw [hu]; exact cb
    have ucur : (navUpdateIndex (clampCursor s) Key.down).cursor
        = (clampCursor s).cursor := by rw [hu]
    have uprompt : (navUpdateIndex (clampCursor s) Key.down).prompt = s.prompt := by
      rw [hu]; exact cp
    have uhist : (navUpdateIndex (clampCursor s) Key.down).history = s.history := by
      rw [hu]; exact ch
    have uidx : (navUpdateIndex (clampCursor s) Key.down).history_index
        = (if 0 < s.history_index then s.history_index - 1 else -1) := by
      rw [hu]
      show (if 0 < (clampCursor s).history_index then
            (clampCursor s).history_index - 1
          else (-1 : Int)) = _
      rw [ci]
    have hbuf_u : (navUpdateIndex (clampCursor s) Key.down).buffer
        = pre ++ ((navUpdateIndex (clampCursor s) Key.down).prompt ++ cur) := by
      rw [ub, uprompt, hbuf]
    have hpnl_u : ∀ c ∈ (navUpdateIndex (clampCursor s) Key.down).prompt, c ≠ '\n' := by
      rw [uprompt]; exact hpnl
    have hlo_u : pre.length ≤ (navUpdateIndex (clampCursor s) Key.down).cursor := by
      rw [ucur]; exact hlo
    have hhi_u : (navUpdateIndex (clampCursor s) Key.down).cursor
        ≤ pre.length + ((navUpdateIndex (clampCursor s) Key.down).prompt ++ cur).length := by
      rw [ucur, uprompt]; exact hhi
    obtain ⟨rb, rc, rh, ri, rp⟩ :=
      navRewriteLine_spec pre cur (navUpdateIndex (clampCursor s) Key.down)
        hbuf_u hpre hpnl_u hcnl hlo_u hhi_u
    have hidx5 : (keyPressEvent s Key.down).history_index
        = (navUpdateIndex (clampCursor s) Key.down).history_index := by
      rw [hkey, ri]
    have henl : ∀ c ∈ (if (navUpdateIndex (clampCursor s) Key.down).history_index = -1
        then ([] : List Char)
        else (navUpdateIndex (clampCursor s) Key.down).history.getD
          (navUpdateIndex (clampCursor s) Key.down).history_index.toNat []),
        c ≠ '\n' := by
      split_ifs with hz
      · simp
      · rw [uhist]
        exact history_getD_no_newline s.history _ hent
    have hclt : currentLineText (keyPressEvent s Key.down)
        = (if (navUpdateIndex (clampCursor s) Key.down).history_index = -1 then []
           else (navUpdateIndex (clampCursor s) Key.down).history.getD
             (navUpdateIndex (clampCursor s) Key.down).history_index.toNat []) := by
      rw [hkey]
      refine currentLineText_of_canonical pre _ _ ?_ ?_ hpre ?_ henl
      · rw [rb, rp]
      · rw [rc, rp]
      · rw [rp]; exact hpnl_u
    refine ⟨?_, ?_, ?_, ?_, ?_⟩
    · rw [hkey, rh, uhist]
    · rw [hidx5, uidx]
      rfl
    · rw [hidx5, uidx]
      split_ifs <;> omega
    · rw [hidx5, uidx]
      split_ifs <;> omega
    · rw [hclt, hidx5, ← uhist]

/-- Witness for C5: with history `["foo"]` and `history_index = -1`, an Up
press makes the current line `"foo"` (index 0). -/
theorem history_navigation_spec_witness :
    (keyPressEvent sampleFooState Key.up).history = sampleFooState.history ∧
    (keyPressEvent sampleFooState Key.up).history_index =
      (if (Key.up : Key) = Key.up then
        (if sampleFooState.history_index
            < (sampleFooState.history.length : Int) - 1 then
          sampleFooState.history_index + 1
         else sampleFooState.history_index)
       else (if 0 < sampleFooState.history_index then
          sampleFooState.history_index - 1
         else -1)) ∧
    -1 ≤ (keyPressEvent sampleFooState Key.up).history_index ∧
    (keyPressEvent sampleFooState Key.up).history_index
        ≤ (sampleFooState.history.length : Int) - 1 ∧
    currentLineText (keyPressEvent sampleFooState Key.up) =
      (if (keyPressEvent sampleFooState Key.up).history_index = -1 then []
       else sampleFooState.history.getD
         (keyPressEvent sampleFooState Key.up).history_index.toNat []) :=
  history_navigation_spec [] [] sampleFooState Key.up (by decide) (by decide)
    (Or.inl rfl) (by decide) (by decide) (by decide) (by decide) (by decide)
    (by decide) (by decide) (Or.inl rfl)

end PyEdit
